import Mathlib

/-!
Verification of the cm-chessboard move-input state machine and animation queue.

Shallow embedding of `ChessboardMoveInput.js` (the move-input state machine)
and of the animation queue of `ChessboardView.js`.

Modelling conventions:
* DOM `data-index` attributes are strings `"0"`..`"63"`; a missing attribute is
  `null`.  Every such value is modelled as `Option Nat`; JavaScript truthiness
  of these values coincides with `Option.isSome` because the string `"0"` is
  truthy.
* Piece names (`data-piece` attributes, e.g. `"wp"`) are modelled as `String`;
  a JavaScript string is truthy iff it is non-empty.
* The floating draggable piece (an SVG element in the source) is modelled by a
  `Bool` recording its presence.
* Side effects on the view (`drawPieces`, `setPieceVisibility`, callback
  invocations, ...) are recorded in an effect trace.
* A thrown `Error` is modelled by the `err` field of `StepResult`; the world
  component then reflects the mutations performed before the throw.
* The external collaborators `ChessboardState` (`setPiece`, `addMarker`,
  `removeMarkers`) and the `MOVE_INPUT_MODE` / `MARKER_TYPE` enumerations are
  not part of the analysed sources; they are modelled from the spec (§3, §6).
* The input callbacks are modelled as boolean-valued functions that do not
  mutate the board; they may differ from event to event (see `Reachable`).
-/

namespace CmChessboard

/-- The `STATE` enumeration of `ChessboardMoveInput.js`. -/
inductive MIState where
  | waitForInputStart
  | pieceClickedThreshold
  | clickTo
  | secondClickThreshold
  | dragTo
  | clickDragTo
  | moveDone
  | reset
deriving DecidableEq, Repr

/-- Modelled from the spec: move-input mode ∈ \x7bdragPiece, click, viewOnly\x7d (§6);
the sources only test for equality with `dragPiece`. -/
inductive MoveInputMode where
  | viewOnly
  | dragPiece
  | click
deriving DecidableEq, Repr

/-- Pointer event types relevant to `onPointerDown`; `otherKind` stands for any
other event type (the source throws `Error("event type")` on it). -/
inductive EvType where
  | mousedown
  | touchstart
  | otherKind
deriving DecidableEq, Repr

/-- A pointer coordinate pair. -/
structure Pt where
  x : Int
  y : Int
deriving DecidableEq, Repr

/-- `DRAG_THRESHOLD = 2`. -/
def dragThreshold : Nat := 2

/-- `MOVE_CANCELED_REASON`. -/
def reasonSecondClick : String := "secondClick"

/-- `MOVE_CANCELED_REASON`. -/
def reasonMovedOutOfBoard : String := "movedOutOfBoard"

/-- Marker type of `MARKER_TYPE.move`; modelled from the spec: markerType
distinguishes the "move" highlight from other marker kinds (§3). -/
def moveMarkerType : String := "move"

/-- The combined mutable state touched by the move input machine: the machine's
own fields plus the parts of `ChessboardState` it reads and writes. -/
structure World where
  moveInputState : MIState
  startIndex : Option Nat
  endIndex : Option Nat
  movedPiece : Option String
  startPoint : Option Pt
  draggablePiece : Bool
  pointerMoveListener : Bool
  pointerUpListener : Bool
  squares : List (Option String)
  markers : List (Nat × String)
  inputWhiteEnabled : Bool
  inputBlackEnabled : Bool
  moveInputMode : MoveInputMode
deriving DecidableEq, Repr

/-- Observable side effects of a handler invocation, in execution order. -/
inductive Effect where
  | setPieceVisibility (idx : Option Nat) (visible : Bool)
  | createDraggablePieceEff (piece : Option String)
  | removeDraggablePieceEff
  | moveDraggablePieceEff (x y : Int)
  | drawPieces (squares : List (Option String))
  | drawPiecesDebounced
  | drawMarkersDebounced
  | animatePiecesEff (fromSq toSq : List (Option String))
  | moveStartCB (idx : Option Nat) (result : Bool)
  | moveDoneCB (fromIdx toIdx : Option Nat) (result : Bool)
  | moveCanceledCB (reason : String) (idx : Option Nat)
deriving DecidableEq, Repr

/-- Result of running a handler: the new world, the emitted effects, and the
message of a thrown `Error` (if any). -/
structure StepResult where
  world : World
  effects : List Effect
  err : Option String
deriving DecidableEq, Repr

/-- The `params` object passed to `setMoveInputState`; absent fields are
`none` (JavaScript `undefined`). -/
structure Params where
  index : Option Nat
  piece : Option String
  point : Option Pt
  ptype : Option EvType
deriving DecidableEq, Repr

/-- Modelled from the spec: `setPiece(index, pieceOrEmpty)` writes one slot of
the 64-slot placement (§6).  A null index leaves the placement unchanged. -/
def setPieceOpt (sqs : List (Option String)) (idx : Option Nat)
    (p : Option String) : List (Option String) :=
  match idx with
  | some i => sqs.set i p
  | none => sqs

/-- `updateStartEndMarkers`: remove all markers of type `move`
(`removeMarkers(null, MARKER_TYPE.move)`, modelled from §6), re-add a move
marker on `startIndex` and on `endIndex` when set, and request a debounced
marker redraw. -/
def updateStartEndMarkers (w : World) : World × List Effect :=
  let ms := w.markers.filter (fun m => m.2 ≠ moveMarkerType)
  let ms := match w.startIndex with
    | some i => ms ++ [(i, moveMarkerType)]
    | none => ms
  let ms := match w.endIndex with
    | some i => ms ++ [(i, moveMarkerType)]
    | none => ms
  ({ w with markers := ms }, [Effect.drawMarkersDebounced])

/-- `createDraggablePiece`: throws when a draggable piece already exists,
otherwise creates the floating proxy. -/
def createDraggablePiece (pieceName : Option String) (w : World) : StepResult :=
  if w.draggablePiece then
    ⟨w, [], some "draggablePiece exists"⟩
  else
    ⟨{ w with draggablePiece := true },
      [Effect.createDraggablePieceEff pieceName], none⟩

/-- The `STATE.waitForInputStart` case of `setMoveInputState` (no body). -/
def enterWaitForInputStartW (w : World) : World :=
  { w with moveInputState := MIState.waitForInputStart }

/-- The `STATE.reset` case of `setMoveInputState`: restore the moved piece when
`startIndex` is truthy, `endIndex` is falsy and `movedPiece` is truthy; clear
the transient fields; refresh markers; destroy the floating proxy; detach both
listeners; finally enter `waitForInputStart`. -/
def enterReset (w : World) : World × List Effect :=
  let w := { w with moveInputState := MIState.reset }
  let w :=
    match w.startIndex, w.endIndex, w.movedPiece with
    | some si, none, some p => { w with squares := w.squares.set si (some p) }
    | _, _, _ => w
  let w := { w with startIndex := none, endIndex := none, movedPiece := none }
  let we1 := updateStartEndMarkers w
  let w := we1.1
  let we2 :=
    if w.draggablePiece then
      ({ w with draggablePiece := false }, [Effect.removeDraggablePieceEff])
    else (w, ([] : List Effect))
  let w := we2.1
  let w := { w with pointerMoveListener := false, pointerUpListener := false }
  (enterWaitForInputStartW w, we1.2 ++ we2.2)

/-- The `STATE.pieceClickedThreshold` case of `setMoveInputState`. -/
def enterPieceClickedThreshold (params : Params) (w : World) : StepResult :=
  let prevState := w.moveInputState
  let w := { w with moveInputState := MIState.pieceClickedThreshold }
  if prevState = MIState.waitForInputStart then
    let w := { w with startIndex := params.index, endIndex := none,
                      movedPiece := params.piece }
    let we1 := updateStartEndMarkers w
    let w := { we1.1 with startPoint := params.point }
    if w.pointerMoveListener = false ∧ w.pointerUpListener = false then
      if params.ptype = some EvType.mousedown ∨
          params.ptype = some EvType.touchstart then
        ⟨{ w with pointerMoveListener := true, pointerUpListener := true },
          we1.2, none⟩
      else
        ⟨w, we1.2, some "event type"⟩
    else
      ⟨w, we1.2, some "_pointerMoveListener or _pointerUpListener"⟩
  else
    ⟨w, [], some "moveInputState"⟩

/-- The `STATE.clickTo` case of `setMoveInputState`. -/
def enterClickTo (params : Params) (w : World) : StepResult :=
  let prevState := w.moveInputState
  let w := { w with moveInputState := MIState.clickTo }
  let we1 :=
    if w.draggablePiece then
      ({ w with draggablePiece := false }, [Effect.removeDraggablePieceEff])
    else (w, ([] : List Effect))
  if prevState = MIState.dragTo then
    ⟨we1.1, we1.2 ++ [Effect.setPieceVisibility params.index true], none⟩
  else
    ⟨we1.1, we1.2, none⟩

/-- The `STATE.secondClickThreshold` case of `setMoveInputState`. -/
def enterSecondClickThreshold (params : Params) (w : World) : StepResult :=
  let prevState := w.moveInputState
  let w := { w with moveInputState := MIState.secondClickThreshold }
  if prevState = MIState.clickTo then
    ⟨{ w with startPoint := params.point }, [], none⟩
  else
    ⟨w, [], some "moveInputState"⟩

/-- The `STATE.dragTo` case of `setMoveInputState`. -/
def enterDragTo (params : Params) (w : World) : StepResult :=
  let prevState := w.moveInputState
  let w := { w with moveInputState := MIState.dragTo }
  if prevState = MIState.pieceClickedThreshold then
    if w.moveInputMode = MoveInputMode.dragPiece then
      let r := createDraggablePiece params.piece w
      ⟨r.world, Effect.setPieceVisibility params.index false :: r.effects, r.err⟩
    else
      ⟨w, [], none⟩
  else
    ⟨w, [], some "moveInputState"⟩

/-- The `STATE.clickDragTo` case of `setMoveInputState`. -/
def enterClickDragTo (params : Params) (w : World) : StepResult :=
  let prevState := w.moveInputState
  let w := { w with moveInputState := MIState.clickDragTo }
  if prevState = MIState.secondClickThreshold then
    if w.moveInputMode = MoveInputMode.dragPiece then
      let r := createDraggablePiece params.piece w
      ⟨r.world, Effect.setPieceVisibility params.index false :: r.effects, r.err⟩
    else
      ⟨w, [], none⟩
  else
    ⟨w, [], some "moveInputState"⟩

/-- The `STATE.moveDone` case of `setMoveInputState`.  The callback is only
invoked when `endIndex` is truthy (`&&` short-circuit); on acceptance the
placement is committed and redrawn (animated iff the predecessor was
`clickTo`), otherwise a debounced redraw restores the visuals; both paths
continue with `STATE.reset`. -/
def enterMoveDone (cbDone : Option Nat → Option Nat → Bool) (params : Params)
    (w : World) : StepResult :=
  let prevState := w.moveInputState
  let w := { w with moveInputState := MIState.moveDone }
  if prevState = MIState.dragTo ∨ prevState = MIState.clickTo ∨
      prevState = MIState.clickDragTo then
    let w := { w with endIndex := params.index }
    match w.endIndex with
    | some _ =>
      if cbDone w.startIndex w.endIndex then
        let prevSquares := w.squares
        let w := { w with squares := setPieceOpt w.squares w.startIndex none }
        let w := { w with squares := setPieceOpt w.squares w.endIndex w.movedPiece }
        if prevState = MIState.clickTo then
          let we := enterReset w
          ⟨we.1, Effect.moveDoneCB w.startIndex w.endIndex true ::
                 Effect.animatePiecesEff prevSquares w.squares :: we.2, none⟩
        else
          let we := enterReset w
          ⟨we.1, Effect.moveDoneCB w.startIndex w.endIndex true ::
                 Effect.drawPieces w.squares :: we.2, none⟩
      else
        let we := enterReset w
        ⟨we.1, Effect.moveDoneCB w.startIndex w.endIndex false ::
               Effect.drawPiecesDebounced :: we.2, none⟩
    | none =>
      let we := enterReset w
      ⟨we.1, Effect.drawPiecesDebounced :: we.2, none⟩
  else
    ⟨w, [], some "moveInputState"⟩

/-- `setMoveInputState(newState, params)`: dispatch on the requested state.
The JavaScript `default` branch (unknown state value) is unrepresentable since
`MIState` enumerates exactly the `STATE` values. -/
def setMoveInputState (cbDone : Option Nat → Option Nat → Bool)
    (newState : MIState) (params : Params) (w : World) : StepResult :=
  match newState with
  | MIState.waitForInputStart => ⟨enterWaitForInputStartW w, [], none⟩
  | MIState.pieceClickedThreshold => enterPieceClickedThreshold params w
  | MIState.clickTo => enterClickTo params w
  | MIState.secondClickThreshold => enterSecondClickThreshold params w
  | MIState.dragTo => enterDragTo params w
  | MIState.clickDragTo => enterClickDragTo params w
  | MIState.moveDone => enterMoveDone cbDone params w
  | MIState.reset => let we := enterReset w; ⟨we.1, we.2, none⟩

/-- The piece element the view would return for a square (`view.getPiece`):
the rendered DOM mirrors `state.squares`, so the lookup is resolved against
the placement. -/
def pieceAt (w : World) (idx : Option Nat) : Option String :=
  match idx with
  | some i => (w.squares.get? i).getD none
  | none => none

/-- JavaScript truthiness of an optional string (`undefined`, `null` and `""`
are falsy). -/
def truthyStr (p : Option String) : Bool :=
  match p with
  | some s => s ≠ ""
  | none => false

/-- `color = pieceName ? pieceName.substr(0, 1) : null`. -/
def colorOf (p : Option String) : Option String :=
  match p with
  | some s => if s = "" then none else some (s.take 1)
  | none => none

/-- `onPointerDown`.  `targetIndex` is the `data-index` attribute of the event
target (`null` when the target is not a board square).  The source's
`index !== undefined` test is always true, since `getAttribute` yields `null`,
never `undefined`; `e.preventDefault()` has no modelled effect. -/
def onPointerDown (cbStart : Option Nat → Bool)
    (cbDone : Option Nat → Option Nat → Bool) (etype : EvType) (button : Nat)
    (targetIndex : Option Nat) (pt : Pt) (w : World) : StepResult :=
  if (etype = EvType.mousedown ∧ button = 0) ∨ etype = EvType.touchstart then
    let index := targetIndex
    let pieceName := pieceAt w index
    let color := colorOf pieceName
    if w.moveInputState ≠ MIState.waitForInputStart ∨
        (w.inputWhiteEnabled = true ∧ color = some "w") ∨
        (w.inputBlackEnabled = true ∧ color = some "b") then
      if w.moveInputState = MIState.waitForInputStart then
        if truthyStr pieceName then
          if cbStart index then
            let r := enterPieceClickedThreshold
              ⟨index, pieceName, some pt, some etype⟩ w
            ⟨r.world, Effect.moveStartCB index true :: r.effects, r.err⟩
          else
            ⟨w, [Effect.moveStartCB index false], none⟩
        else
          ⟨w, [], none⟩
      else if w.moveInputState = MIState.clickTo then
        if index = w.startIndex then
          enterSecondClickThreshold ⟨index, pieceName, some pt, some etype⟩ w
        else
          enterMoveDone cbDone ⟨index, none, none, none⟩ w
      else
        ⟨w, [], none⟩
    else
      ⟨w, [], none⟩
  else
    ⟨w, [], none⟩

/-- The target of a `pointermove`, when one exists: its `data-index` attribute
and whether its parent element is the view's board group. -/
structure MoveTarget where
  dataIndex : Option Nat
  inBoardGroup : Bool
deriving DecidableEq, Repr

/-- The target of a `pointerup`, when one exists: its `data-index` attribute. -/
structure UpTarget where
  dataIndex : Option Nat
deriving DecidableEq, Repr

/-- The `endIndex`-clearing branch of `onPointerMove` (target missing or not a
board-group child): clear `endIndex` and refresh markers when it was set. -/
def clearEndIndexIfSet (w : World) : World × List Effect :=
  if w.endIndex ≠ none then
    updateStartEndMarkers { w with endIndex := none }
  else
    (w, [])

/-- The drag/click-to branch of `onPointerMove` (the target inspection of
source lines 274–288): over a board-group square differing from both
`startIndex` and `endIndex`, set `endIndex` to it; back over `startIndex`
with `endIndex` set, or away from the board squares, clear `endIndex`. -/
def moveOverBoard (target : Option MoveTarget) (w : World) :
    World × List Effect :=
  match target with
  | some t =>
    if t.inBoardGroup then
      let index := t.dataIndex
      if index ≠ w.startIndex ∧ index ≠ w.endIndex then
        updateStartEndMarkers { w with endIndex := index }
      else if index = w.startIndex ∧ w.endIndex ≠ none then
        updateStartEndMarkers { w with endIndex := none }
      else
        (w, [])
    else
      clearEndIndexIfSet w
  | none => clearEndIndexIfSet w

/-- `onPointerMove`. -/
def onPointerMove (pt : Pt) (target : Option MoveTarget) (w : World) :
    StepResult :=
  if w.moveInputState = MIState.pieceClickedThreshold ∨
      w.moveInputState = MIState.secondClickThreshold then
    match w.startPoint with
    | none => ⟨w, [], some "TypeError"⟩
    | some sp =>
      if (sp.x - pt.x).natAbs > dragThreshold ∨
          (sp.y - pt.y).natAbs > dragThreshold then
        let r :=
          if w.moveInputState = MIState.secondClickThreshold then
            enterClickDragTo ⟨w.startIndex, w.movedPiece, none, none⟩ w
          else
            enterDragTo ⟨w.startIndex, w.movedPiece, none, none⟩ w
        if r.err.isSome then
          r
        else if r.world.moveInputMode = MoveInputMode.dragPiece then
          if r.world.draggablePiece then
            ⟨r.world, r.effects ++ [Effect.moveDraggablePieceEff pt.x pt.y],
              none⟩
          else
            ⟨r.world, r.effects, some "TypeError"⟩
        else
          r
      else
        ⟨w, [], none⟩
  else if w.moveInputState = MIState.dragTo ∨
      w.moveInputState = MIState.clickDragTo ∨
      w.moveInputState = MIState.clickTo then
    let we := moveOverBoard target w
    let w := we.1
    if w.moveInputMode = MoveInputMode.dragPiece ∧
        (w.moveInputState = MIState.dragTo ∨
         w.moveInputState = MIState.clickDragTo) then
      if w.draggablePiece then
        ⟨w, we.2 ++ [Effect.moveDraggablePieceEff pt.x pt.y], none⟩
      else
        ⟨w, we.2, some "TypeError"⟩
    else
      ⟨w, we.2, none⟩
  else
    ⟨w, [], none⟩

/-- `onPointerUp`.  `target = none` models a pointer-up whose hit test yields
no element at all (outer `else`); a target whose `data-index` is `none` models
an element outside the board squares. -/
def onPointerUp (cbDone : Option Nat → Option Nat → Bool)
    (target : Option UpTarget) (w : World) : StepResult :=
  match target with
  | some t =>
    match t.dataIndex with
    | some idx =>
      if w.moveInputState = MIState.dragTo ∨
          w.moveInputState = MIState.clickDragTo then
        if w.startIndex = some idx then
          if w.moveInputState = MIState.clickDragTo then
            let w2 := { w with
              squares := setPieceOpt w.squares w.startIndex w.movedPiece }
            let we := enterReset w2
            ⟨we.1, Effect.setPieceVisibility w.startIndex true :: we.2, none⟩
          else
            enterClickTo ⟨some idx, none, none, none⟩ w
        else
          enterMoveDone cbDone ⟨some idx, none, none, none⟩ w
      else if w.moveInputState = MIState.pieceClickedThreshold then
        enterClickTo ⟨some idx, none, none, none⟩ w
      else if w.moveInputState = MIState.secondClickThreshold then
        let we := enterReset w
        ⟨we.1, we.2 ++ [Effect.moveCanceledCB reasonSecondClick (some idx)],
          none⟩
      else
        ⟨w, [], none⟩
    | none =>
      let we := enterReset w
      ⟨we.1, Effect.drawPiecesDebounced ::
        (we.2 ++ [Effect.moveCanceledCB reasonMovedOutOfBoard none]), none⟩
  | none =>
    let we := enterReset w
    ⟨we.1, Effect.drawPiecesDebounced :: we.2, none⟩

/-- A raw pointer event as delivered by the browser. -/
inductive Ev where
  | down (etype : EvType) (button : Nat) (targetIndex : Option Nat) (pt : Pt)
  | move (pt : Pt) (target : Option MoveTarget)
  | up (target : Option UpTarget)
deriving DecidableEq, Repr

/-- One event delivery.  `mousemove`/`mouseup` (`touchmove`/`touchend`)
handlers run only while the corresponding window listener is attached;
the `mousedown`/`touchstart` listener is attached permanently. -/
def step (cbStart : Option Nat → Bool)
    (cbDone : Option Nat → Option Nat → Bool) (ev : Ev) (w : World) :
    StepResult :=
  match ev with
  | Ev.down etype button targetIndex pt =>
    onPointerDown cbStart cbDone etype button targetIndex pt w
  | Ev.move pt target =>
    if w.pointerMoveListener then onPointerMove pt target w else ⟨w, [], none⟩
  | Ev.up target =>
    if w.pointerUpListener then onPointerUp cbDone target w else ⟨w, [], none⟩

/-- The state immediately after the `ChessboardMoveInput` constructor, with a
given placement, an empty marker set, and given input-enabled flags. -/
def initWorld (sqs : List (Option String)) (iw ib : Bool)
    (mode : MoveInputMode) : World :=
  { moveInputState := MIState.waitForInputStart
    startIndex := none
    endIndex := none
    movedPiece := none
    startPoint := none
    draggablePiece := false
    pointerMoveListener := false
    pointerUpListener := false
    squares := sqs
    markers := []
    inputWhiteEnabled := iw
    inputBlackEnabled := ib
    moveInputMode := mode }

/-- Fold a list of events over the world, keeping only the world component. -/
def runEvents (cbStart : Option Nat → Bool)
    (cbDone : Option Nat → Option Nat → Bool) (evs : List Ev) (w : World) :
    World :=
  evs.foldl (fun w ev => (step cbStart cbDone ev w).world) w

/-- The worlds reachable from some post-constructor state by pointer events.
The callbacks may answer differently at every event, which covers stateful
application callbacks. -/
inductive Reachable : World → Prop where
  | init (sqs : List (Option String)) (iw ib : Bool) (mode : MoveInputMode) :
      Reachable (initWorld sqs iw ib mode)
  | next (cbStart : Option Nat → Bool)
      (cbDone : Option Nat → Option Nat → Bool) (ev : Ev) (w : World) :
      Reachable w → Reachable (step cbStart cbDone ev w).world

/-- One entry of `ChessboardView.animationQueue`: the placement snapshots
captured at enqueue time (`slice(0)` copies). -/
structure AnimEntry where
  fromSquares : List (Option String)
  toSquares : List (Option String)
deriving DecidableEq, Repr

/-- The animation-relevant state of a `ChessboardView`.  `current` is the
running `ChessboardPiecesAnimation` (with its assigned duration);
`startedLog` records, in start order, each started animation together with the
queue length at the moment it started (after it was taken off the queue) and
its assigned duration; `lastDrawn` is the placement most recently passed to
`drawPieces` by the queue. -/
structure AnimView where
  animationQueue : List AnimEntry
  animationRunning : Bool
  current : Option AnimEntry
  startedLog : List (AnimEntry × Nat × ℚ)
  lastDrawn : Option (List (Option String))
deriving DecidableEq, Repr

/-- A view with an empty queue and no running animation. -/
def idleAnimView : AnimView :=
  { animationQueue := []
    animationRunning := false
    current := none
    startedLog := []
    lastDrawn := none }

/-- `nextPieceAnimationInQueue`: shift the queue; when an animation was
pending, start it with duration
`props.animationDuration / (this.animationQueue.length + 1)`.
The `ChessboardPiecesAnimation` constructor itself is modelled from the spec:
starting an animation makes it the single actively running one (§4.3). -/
def nextPieceAnimationInQueue (base : ℚ) (v : AnimView) : AnimView :=
  match v.animationQueue with
  | [] => v
  | a :: rest =>
    { v with
      animationQueue := rest
      animationRunning := true
      current := some a
      startedLog := v.startedLog ++
        [(a, rest.length, base / ((rest.length : ℚ) + 1))] }

/-- `animatePieces`: push the new animation, and start the queue when no
animation is running. -/
def animatePieces (base : ℚ) (a : AnimEntry) (v : AnimView) : AnimView :=
  let v := { v with animationQueue := v.animationQueue ++ [a] }
  if v.animationRunning then v else nextPieceAnimationInQueue base v

/-- Completion of the running animation.  Modelled from the spec: when an
animation finishes it stops being the running one and its completion callback
(the closure in `nextPieceAnimationInQueue`) fires: draw the target snapshot
unless a floating draggable piece is present (`!this.moveInput.draggablePiece`),
then start the next queued animation.  `proxy` is the presence of the floating
draggable piece. -/
def completeCurrentAnimation (base : ℚ) (proxy : Bool) (v : AnimView) :
    AnimView :=
  match v.current with
  | none => v
  | some a =>
    let v := { v with
      animationRunning := false
      current := none
      lastDrawn := if proxy then v.lastDrawn else some a.toSquares }
    nextPieceAnimationInQueue base v

/-- Run `n` animation completions. -/
def drainAnimations (base : ℚ) (proxy : Bool) : Nat → AnimView → AnimView
  | 0, v => v
  | n + 1, v => drainAnimations base proxy n (completeCurrentAnimation base proxy v)

/-- An active gesture's bookkeeping is consistent: start square and moved piece
are recorded, and the placement still holds the moved piece on the start
square (the placement is rewritten only on acceptance). -/
def GestureOk (w : World) : Prop :=
  ∃ si p, w.startIndex = some si ∧ w.movedPiece = some p ∧
    w.squares.get? si = some (some p)

/-- Both gesture listeners are attached. -/
def ListenersOn (w : World) : Prop :=
  w.pointerMoveListener = true ∧ w.pointerUpListener = true

/-- The invariant of the machine between event deliveries.  The transient
states `moveDone` and `reset` never persist past a handler invocation. -/
def Inv (w : World) : Prop :=
  match w.moveInputState with
  | MIState.waitForInputStart =>
      w.startIndex = none ∧ w.endIndex = none ∧ w.movedPiece = none ∧
      w.draggablePiece = false ∧ w.pointerMoveListener = false ∧
      w.pointerUpListener = false ∧ ∀ m ∈ w.markers, m.2 ≠ moveMarkerType
  | MIState.pieceClickedThreshold =>
      w.endIndex = none ∧ GestureOk w ∧ w.startPoint ≠ none ∧
      w.draggablePiece = false ∧ ListenersOn w
  | MIState.clickTo =>
      GestureOk w ∧ w.draggablePiece = false ∧ ListenersOn w
  | MIState.secondClickThreshold =>
      GestureOk w ∧ w.startPoint ≠ none ∧ w.draggablePiece = false ∧
      ListenersOn w
  | MIState.dragTo =>
      GestureOk w ∧
      (w.draggablePiece = true ↔ w.moveInputMode = MoveInputMode.dragPiece) ∧
      ListenersOn w
  | MIState.clickDragTo =>
      GestureOk w ∧
      (w.draggablePiece = true ↔ w.moveInputMode = MoveInputMode.dragPiece) ∧
      ListenersOn w
  | MIState.moveDone => False
  | MIState.reset => False

/-- The placement after the restore check of the `reset` case. -/
def resetSquares (w : World) : List (Option String) :=
  match w.startIndex, w.endIndex, w.movedPiece with
  | some si, none, some p => w.squares.set si (some p)
  | _, _, _ => w.squares

/-- A transition request that violates the predecessor guards of
`setMoveInputState` (transition table of §4.1), or an attempt to attach the
move/up listener pair while one is already registered. -/
def GuardViolated (ns : MIState) (w : World) : Prop :=
  match ns with
  | MIState.pieceClickedThreshold =>
      w.moveInputState ≠ MIState.waitForInputStart ∨
      w.pointerMoveListener = true ∨ w.pointerUpListener = true
  | MIState.secondClickThreshold => w.moveInputState ≠ MIState.clickTo
  | MIState.dragTo => w.moveInputState ≠ MIState.pieceClickedThreshold
  | MIState.clickDragTo => w.moveInputState ≠ MIState.secondClickThreshold
  | MIState.moveDone =>
      ¬(w.moveInputState = MIState.dragTo ∨
        w.moveInputState = MIState.clickTo ∨
        w.moveInputState = MIState.clickDragTo)
  | _ => False

/-- Whether an effect is an invocation of `moveCanceledCallback`. -/
def isCancelEffect : Effect → Bool := fun e =>
  match e with
  | Effect.moveCanceledCB _ _ => true
  | _ => false

/-- A placement with a single white pawn on square 12. -/
def sqs0 : List (Option String) :=
  (List.replicate 64 (none : Option String)).set 12 (some "wp")

/-- A `moveStartCallback` that always accepts. -/
def cbStartT : Option Nat → Bool := fun _ => true

/-- A `moveDoneCallback` that always accepts. -/
def cbDoneT : Option Nat → Option Nat → Bool := fun _ _ => true

/-- Initial world: pawn on 12, white input enabled, `click` mode. -/
def w0 : World := initWorld sqs0 true false MoveInputMode.click

/-- Click on 12, release on 12, hover 28, press 12 again: the machine sits in
`secondClickThreshold` while `endIndex` is still square 28. -/
def evsC6 : List Ev :=
  [Ev.down EvType.mousedown 0 (some 12) ⟨0, 0⟩,
   Ev.up (some ⟨some 12⟩),
   Ev.move ⟨10, 10⟩ (some ⟨some 28, true⟩),
   Ev.down EvType.mousedown 0 (some 12) ⟨10, 10⟩]

def wC6 : World := runEvents cbStartT cbDoneT evsC6 w0

/-- Press on 12 and drag past the threshold: the machine is in `dragTo`. -/
def evsC7 : List Ev :=
  [Ev.down EvType.mousedown 0 (some 12) ⟨0, 0⟩,
   Ev.move ⟨10, 10⟩ (some ⟨some 28, true⟩)]

def wC7 : World := runEvents cbStartT cbDoneT evsC7 w0

def rC7 : StepResult := step cbStartT cbDoneT (Ev.up none) wC7

/-- Press on 12, release with no hit-test target: a completed (canceled)
gesture ending back in `waitForInputStart`. -/
def evsC1 : List Ev :=
  [Ev.down EvType.mousedown 0 (some 12) ⟨0, 0⟩, Ev.up none]

def wC1 : World := runEvents cbStartT cbDoneT evsC1 w0

/-- A machine sitting in `clickTo` with the pawn from square 12 selected. -/
def wClickTo : World :=
  { moveInputState := MIState.clickTo
    startIndex := some 12
    endIndex := none
    movedPiece := some "wp"
    startPoint := some ⟨0, 0⟩
    draggablePiece := false
    pointerMoveListener := true
    pointerUpListener := true
    squares := sqs0
    markers := [(12, moveMarkerType)]
    inputWhiteEnabled := true
    inputBlackEnabled := false
    moveInputMode := MoveInputMode.click }

def paramsTo28 : Params := ⟨some 28, none, none, none⟩

/-- A `moveDoneCallback` that always rejects. -/
def cbDoneF : Option Nat → Option Nat → Bool := fun _ _ => false

/-- The start log produced by playing a pending queue to completion: each
entry is started when it is taken off the queue, recording the queue length
at that moment and the assigned duration `base / (queue length + 1)`. -/
def startedOf (base : ℚ) : List AnimEntry → List (AnimEntry × Nat × ℚ)
  | [] => []
  | a :: rest =>
    (a, rest.length, base / ((rest.length : ℚ) + 1)) :: startedOf base rest

/-- An animation whose source and target placements differ. -/
def animCx : AnimEntry := ⟨sqs0, sqs0.set 5 (some "wq")⟩

/-! The development: the machine invariant preservation, and the claims. -/

theorem list_set_get_eq {α : Type} : ∀ (l : List α) (i : Nat) (a : α),
    l.get? i = some a → l.set i a = l := by
  intro l
  induction l with
  | nil => intro i a h; cases h
  | cons x xs ih =>
    intro i a h
    cases i with
    | zero => simp_all [List.get?]
    | succ j =>
      simp only [List.get?] at h
      simp [List.set, ih j a h]

theorem enterReset_world (w : World) :
    (enterReset w).1 = { w with
      moveInputState := MIState.waitForInputStart
      startIndex := none
      endIndex := none
      movedPiece := none
      draggablePiece := false
      pointerMoveListener := false
      pointerUpListener := false
      squares := resetSquares w
      markers := w.markers.filter (fun m => m.2 ≠ moveMarkerType) } := by
  obtain ⟨st, si, ei, mp, spt, dp, ml, ul, sqs, mks, iw, ib, mode⟩ := w
  simp only [enterReset, updateStartEndMarkers, enterWaitForInputStartW,
    resetSquares]
  cases si <;> cases ei <;> cases mp <;> cases dp <;> rfl

theorem enterReset_effects (w : World) :
    (enterReset w).2 = Effect.drawMarkersDebounced ::
      (if w.draggablePiece then [Effect.removeDraggablePieceEff] else []) := by
  obtain ⟨st, si, ei, mp, spt, dp, ml, ul, sqs, mks, iw, ib, mode⟩ := w
  simp only [enterReset, updateStartEndMarkers, enterWaitForInputStartW]
  cases si <;> cases ei <;> cases mp <;> cases dp <;> rfl

theorem resetSquares_of_end_some (w : World) (e : Nat)
    (h : w.endIndex = some e) : resetSquares w = w.squares := by
  unfold resetSquares
  rw [h]
  rcases w.startIndex with _ | si <;> rcases w.movedPiece with _ | p <;> rfl

theorem resetSquares_of_gestureOk (w : World) (h : GestureOk w) :
    resetSquares w = w.squares := by
  obtain ⟨si, p, h1, h2, h3⟩ := h
  unfold resetSquares
  rw [h1, h2]
  rcases he : w.endIndex with _ | e
  · exact list_set_get_eq w.squares si (some p) h3
  · rfl

theorem inv_enterReset (w : World) : Inv (enterReset w).1 := by
  rw [enterReset_world]
  refine ⟨rfl, rfl, rfl, rfl, rfl, rfl, ?_⟩
  intro m hm
  simp only [List.mem_filter, decide_not] at hm
  simpa using hm.2

theorem no_move_markers_enterReset (w : World) :
    ∀ m ∈ (enterReset w).1.markers, m.2 ≠ moveMarkerType := by
  rw [enterReset_world]
  intro m hm
  simp only [List.mem_filter, decide_not] at hm
  simpa using hm.2

theorem resetSquares_of_start_none (w : World) (h : w.startIndex = none) :
    resetSquares w = w.squares := by
  unfold resetSquares
  rw [h]

theorem enterMoveDone_master (cbDone : Option Nat → Option Nat → Bool)
    (params : Params) (w : World)
    (hprev : w.moveInputState = MIState.dragTo ∨
      w.moveInputState = MIState.clickTo ∨
      w.moveInputState = MIState.clickDragTo)
    (hg : GestureOk w) :
    Inv (enterMoveDone cbDone params w).world ∧
      (enterMoveDone cbDone params w).err = none ∧
      ((∀ a b, Effect.moveDoneCB a b true ∉ (enterMoveDone cbDone params w).effects) →
        (enterMoveDone cbDone params w).world.squares = w.squares) := by
  obtain ⟨si0, p0, hg1, hg2, hg3⟩ := hg
  obtain ⟨pi, pp, ppt, pty⟩ := params
  obtain ⟨st, si, ei, mp, spt, dp, ml, ul, sqs, mks, iw, ib, mode⟩ := w
  simp only at hg1 hg2 hg3
  subst hg1 hg2
  rcases pi with _ | piv <;>
    [skip; skip] <;> unfold enterMoveDone <;> rw [if_pos hprev] <;> dsimp only
  · refine ⟨inv_enterReset _, rfl, ?_⟩
    intro _
    show (enterReset _).1.squares = _
    rw [enterReset_world]
    dsimp only
    apply resetSquares_of_gestureOk
    exact ⟨si0, p0, rfl, rfl, hg3⟩
  · by_cases hcb : cbDone (some si0) (some piv) = true
    · rw [if_pos hcb]
      by_cases hct : st = MIState.clickTo
      · rw [if_pos hct]
        dsimp only
        refine ⟨inv_enterReset _, rfl, ?_⟩
        intro hna
        exact absurd (List.mem_cons_self _ _) (hna (some si0) (some piv))
      · rw [if_neg hct]
        dsimp only
        refine ⟨inv_enterReset _, rfl, ?_⟩
        intro hna
        exact absurd (List.mem_cons_self _ _) (hna (some si0) (some piv))
    · rw [if_neg hcb]
      dsimp only
      refine ⟨inv_enterReset _, rfl, ?_⟩
      intro _
      show (enterReset _).1.squares = _
      rw [enterReset_world]
      dsimp only
      exact resetSquares_of_end_some _ piv rfl

theorem enterClickTo_master (params : Params) (w : World)
    (hg : GestureOk w) (hl : ListenersOn w) :
    Inv (enterClickTo params w).world ∧ (enterClickTo params w).err = none ∧
      (enterClickTo params w).world.squares = w.squares := by
  obtain ⟨si0, p0, hg1, hg2, hg3⟩ := hg
  obtain ⟨hl1, hl2⟩ := hl
  obtain ⟨pi, pp, ppt, pty⟩ := params
  obtain ⟨st, si, ei, mp, spt, dp, ml, ul, sqs, mks, iw, ib, mode⟩ := w
  simp only at hg1 hg2 hg3 hl1 hl2
  subst hg1 hg2 hl1 hl2
  unfold enterClickTo
  dsimp only
  split_ifs with h1 h2 h3 <;>
    refine ⟨⟨⟨si0, p0, rfl, rfl, hg3⟩, ?_, rfl, rfl⟩, rfl, rfl⟩ <;>
    simp_all

theorem enterSecondClickThreshold_master (params : Params) (w : World)
    (hst : w.moveInputState = MIState.clickTo) (hg : GestureOk w)
    (hl : ListenersOn w) (hdp : w.draggablePiece = false)
    (hpt : params.point ≠ none) :
    Inv (enterSecondClickThreshold params w).world ∧
      (enterSecondClickThreshold params w).err = none ∧
      (enterSecondClickThreshold params w).world.squares = w.squares := by
  obtain ⟨si0, p0, hg1, hg2, hg3⟩ := hg
  obtain ⟨hl1, hl2⟩ := hl
  obtain ⟨pi, pp, ppt, pty⟩ := params
  obtain ⟨st, si, ei, mp, spt, dp, ml, ul, sqs, mks, iw, ib, mode⟩ := w
  simp only at hg1 hg2 hg3 hl1 hl2 hst hdp hpt
  subst hg1 hg2 hl1 hl2 hst hdp
  unfold enterSecondClickThreshold
  rw [if_pos rfl]
  exact ⟨⟨⟨si0, p0, rfl, rfl, hg3⟩, hpt, rfl, rfl, rfl⟩, rfl, rfl⟩

theorem enterDragTo_master (params : Params) (w : World)
    (hst : w.moveInputState = MIState.pieceClickedThreshold) (hg : GestureOk w)
    (hl : ListenersOn w) (hdp : w.draggablePiece = false) :
    Inv (enterDragTo params w).world ∧ (enterDragTo params w).err = none ∧
      (enterDragTo params w).world.squares = w.squares ∧
      (enterDragTo params w).world.moveInputMode = w.moveInputMode ∧
      ((enterDragTo params w).world.draggablePiece = true ↔
        w.moveInputMode = MoveInputMode.dragPiece) ∧
      (enterDragTo params w).world.moveInputState = MIState.dragTo := by
  obtain ⟨si0, p0, hg1, hg2, hg3⟩ := hg
  obtain ⟨hl1, hl2⟩ := hl
  obtain ⟨pi, pp, ppt, pty⟩ := params
  obtain ⟨st, si, ei, mp, spt, dp, ml, ul, sqs, mks, iw, ib, mode⟩ := w
  simp only at hg1 hg2 hg3 hl1 hl2 hst hdp
  subst hg1 hg2 hl1 hl2 hst hdp
  unfold enterDragTo createDraggablePiece
  rw [if_pos rfl]
  dsimp only
  by_cases hm : mode = MoveInputMode.dragPiece
  · rw [if_pos hm]
    simp only [Bool.false_eq_true, if_false]
    refine ⟨⟨⟨si0, p0, rfl, rfl, hg3⟩, ?_, ?_, ?_⟩, ?_, ?_, ?_, ?_, ?_⟩ <;>
      simp [hm]
  · rw [if_neg hm]
    refine ⟨⟨⟨si0, p0, rfl, rfl, hg3⟩, ?_, ?_, ?_⟩, ?_, ?_, ?_, ?_, ?_⟩ <;>
      simp [hm]

theorem enterClickDragTo_master (params : Params) (w : World)
    (hst : w.moveInputState = MIState.secondClickThreshold) (hg : GestureOk w)
    (hl : ListenersOn w) (hdp : w.draggablePiece = false) :
    Inv (enterClickDragTo params w).world ∧
      (enterClickDragTo params w).err = none ∧
      (enterClickDragTo params w).world.squares = w.squares ∧
      (enterClickDragTo params w).world.moveInputMode = w.moveInputMode ∧
      ((enterClickDragTo params w).world.draggablePiece = true ↔
        w.moveInputMode = MoveInputMode.dragPiece) ∧
      (enterClickDragTo params w).world.moveInputState = MIState.clickDragTo := by
  obtain ⟨si0, p0, hg1, hg2, hg3⟩ := hg
  obtain ⟨hl1, hl2⟩ := hl
  obtain ⟨pi, pp, ppt, pty⟩ := params
  obtain ⟨st, si, ei, mp, spt, dp, ml, ul, sqs, mks, iw, ib, mode⟩ := w
  simp only at hg1 hg2 hg3 hl1 hl2 hst hdp
  subst hg1 hg2 hl1 hl2 hst hdp
  unfold enterClickDragTo createDraggablePiece
  rw [if_pos rfl]
  dsimp only
  by_cases hm : mode = MoveInputMode.dragPiece
  · rw [if_pos hm]
    simp only [Bool.false_eq_true, if_false]
    refine ⟨⟨⟨si0, p0, rfl, rfl, hg3⟩, ?_, ?_, ?_⟩, ?_, ?_, ?_, ?_, ?_⟩ <;>
      simp [hm]
  · rw [if_neg hm]
    refine ⟨⟨⟨si0, p0, rfl, rfl, hg3⟩, ?_, ?_, ?_⟩, ?_, ?_, ?_, ?_, ?_⟩ <;>
      simp [hm]

theorem enterPieceClickedThreshold_master (params : Params) (w : World)
    (hst : w.moveInputState = MIState.waitForInputStart)
    (hml : w.pointerMoveListener = false) (hul : w.pointerUpListener = false)
    (hdp : w.draggablePiece = false) (i0 : Nat) (pc0 : String) (q0 : Pt)
    (hidx : params.index = some i0) (hpc : params.piece = some pc0)
    (hsq : w.squares.get? i0 = some (some pc0)) (hpt : params.point = some q0)
    (hty : params.ptype = some EvType.mousedown ∨
      params.ptype = some EvType.touchstart) :
    Inv (enterPieceClickedThreshold params w).world ∧
      (enterPieceClickedThreshold params w).err = none ∧
      (enterPieceClickedThreshold params w).world.squares = w.squares := by
  obtain ⟨pi, pp, ppt, pty⟩ := params
  obtain ⟨st, si, ei, mp, spt, dp, ml, ul, sqs, mks, iw, ib, mode⟩ := w
  simp only at hst hml hul hdp hidx hpc hsq hpt hty
  subst hst hml hul hdp hidx hpc hpt
  unfold enterPieceClickedThreshold updateStartEndMarkers
  rw [if_pos rfl]
  dsimp only
  rw [if_pos ⟨rfl, rfl⟩, if_pos hty]
  exact ⟨⟨rfl, ⟨i0, pc0, rfl, rfl, hsq⟩, by simp, rfl, rfl, rfl⟩, rfl, rfl⟩

theorem resetSquares_of_inv (w : World) (h : Inv w) :
    resetSquares w = w.squares := by
  obtain ⟨st, si, ei, mp, spt, dp, ml, ul, sqs, mks, iw, ib, mode⟩ := w
  cases st
  case waitForInputStart =>
    obtain ⟨h1, -, -, -, -, -, -⟩ := h
    exact resetSquares_of_start_none _ h1
  case pieceClickedThreshold =>
    obtain ⟨-, hg, -, -, -⟩ := h
    exact resetSquares_of_gestureOk _ hg
  case clickTo =>
    obtain ⟨hg, -, -⟩ := h
    exact resetSquares_of_gestureOk _ hg
  case secondClickThreshold =>
    obtain ⟨hg, -, -, -⟩ := h
    exact resetSquares_of_gestureOk _ hg
  case dragTo =>
    obtain ⟨hg, -, -⟩ := h
    exact resetSquares_of_gestureOk _ hg
  case clickDragTo =>
    obtain ⟨hg, -, -⟩ := h
    exact resetSquares_of_gestureOk _ hg
  case moveDone => exact h.elim
  case reset => exact h.elim

theorem up_master (cbDone : Option Nat → Option Nat → Bool)
    (t : Option UpTarget) (w : World) (h : Inv w)
    (hul : w.pointerUpListener = true) :
    Inv (onPointerUp cbDone t w).world ∧ (onPointerUp cbDone t w).err = none ∧
      ((∀ a b, Effect.moveDoneCB a b true ∉ (onPointerUp cbDone t w).effects) →
        (onPointerUp cbDone t w).world.squares = w.squares) := by
  have hrs := resetSquares_of_inv w h
  rcases t with _ | ⟨ti⟩
  · unfold onPointerUp
    refine ⟨inv_enterReset _, rfl, fun _ => ?_⟩
    show (enterReset _).1.squares = _
    rw [enterReset_world]
    exact hrs
  · rcases ti with _ | idx
    · unfold onPointerUp
      refine ⟨inv_enterReset _, rfl, fun _ => ?_⟩
      show (enterReset _).1.squares = _
      rw [enterReset_world]
      exact hrs
    · obtain ⟨st, si, ei, mp, spt, dp, ml, ul, sqs, mks, iw, ib, mode⟩ := w
      cases st
      case waitForInputStart =>
        obtain ⟨-, -, -, -, -, h6, -⟩ := h
        simp only at h6 hul
        rw [h6] at hul
        exact absurd hul (by simp)
      case clickTo =>
        unfold onPointerUp
        dsimp only
        rw [if_neg (by simp), if_neg (by simp), if_neg (by simp)]
        exact ⟨h, rfl, fun _ => rfl⟩
      case pieceClickedThreshold =>
        obtain ⟨h1, hg, h3, h4, hl⟩ := h
        unfold onPointerUp
        dsimp only
        rw [if_neg (by simp), if_pos rfl]
        obtain ⟨a1, a2, a3⟩ := enterClickTo_master ⟨some idx, none, none, none⟩ _ hg hl
        exact ⟨a1, a2, fun _ => a3⟩
      case secondClickThreshold =>
        obtain ⟨hg, h2, h3, hl⟩ := h
        unfold onPointerUp
        dsimp only
        rw [if_neg (by simp), if_neg (by simp), if_pos rfl]
        refine ⟨inv_enterReset _, rfl, fun _ => ?_⟩
        show (enterReset _).1.squares = _
        rw [enterReset_world]
        exact hrs
      case dragTo =>
        obtain ⟨hg, hiff, hl⟩ := h
        unfold onPointerUp
        dsimp only
        rw [if_pos (Or.inl rfl)]
        by_cases hsi : si = some idx
        · rw [if_pos hsi, if_neg (by simp)]
          obtain ⟨a1, a2, a3⟩ := enterClickTo_master ⟨some idx, none, none, none⟩ _ hg hl
          exact ⟨a1, a2, fun _ => a3⟩
        · rw [if_neg hsi]
          exact enterMoveDone_master _ _ _ (Or.inl rfl) hg
      case clickDragTo =>
        obtain ⟨hg, hiff, hl⟩ := h
        unfold onPointerUp
        dsimp only
        rw [if_pos (Or.inr rfl)]
        by_cases hsi : si = some idx
        · rw [if_pos hsi, if_pos rfl]
          obtain ⟨si0, p0, hg1, hg2, hg3⟩ := hg
          simp only at hg1 hg2 hg3
          subst hg1 hg2
          dsimp only [setPieceOpt]
          rw [list_set_get_eq sqs si0 (some p0) hg3]
          refine ⟨inv_enterReset _, rfl, fun _ => ?_⟩
          show (enterReset _).1.squares = _
          rw [enterReset_world]
          exact hrs
        · rw [if_neg hsi]
          exact enterMoveDone_master _ _ _ (Or.inr (Or.inr rfl)) hg
      case moveDone => exact h.elim
      case reset => exact h.elim

theorem moveOverBoard_fields (target : Option MoveTarget) (w : World) :
    ∃ e m, (moveOverBoard target w).1 = { w with endIndex := e, markers := m } := by
  obtain ⟨st, si, ei, mp, spt, dp, ml, ul, sqs, mks, iw, ib, mode⟩ := w
  unfold moveOverBoard clearEndIndexIfSet updateStartEndMarkers
  rcases target with _ | ⟨tidx, tib⟩
  · dsimp only
    split_ifs with h1 <;> exact ⟨_, _, rfl⟩
  · cases tib <;> dsimp only <;> split_ifs <;> exact ⟨_, _, rfl⟩

theorem move_master (pt : Pt) (t : Option MoveTarget) (w : World) (h : Inv w)
    (hml : w.pointerMoveListener = true) :
    Inv (onPointerMove pt t w).world ∧ (onPointerMove pt t w).err = none ∧
      ((∀ a b, Effect.moveDoneCB a b true ∉ (onPointerMove pt t w).effects) →
        (onPointerMove pt t w).world.squares = w.squares) := by
  obtain ⟨st, si, ei, mp, spt, dp, ml, ul, sqs, mks, iw, ib, mode⟩ := w
  cases st
  case waitForInputStart =>
    obtain ⟨-, -, -, -, h5, -, -⟩ := h
    simp only at h5 hml
    rw [h5] at hml
    exact absurd hml (by simp)
  case pieceClickedThreshold =>
    obtain ⟨h1, hg, h3, h4, hl⟩ := h
    unfold onPointerMove
    rw [if_pos (Or.inl rfl)]
    rcases spt with _ | q
    · exact absurd rfl h3
    · dsimp only
      by_cases hth : (q.x - pt.x).natAbs > dragThreshold ∨
          (q.y - pt.y).natAbs > dragThreshold
      · rw [if_pos hth]
        simp only [reduceCtorEq, if_false]
        obtain ⟨a1, a2, a3, a4, a5, a6⟩ :=
          enterDragTo_master ⟨si, mp, none, none⟩ _ rfl hg hl h4
        simp only [a2, Option.isSome_none, Bool.false_eq_true, if_false]
        rw [a4]
        dsimp only
        by_cases hm : mode = MoveInputMode.dragPiece
        · rw [if_pos hm, if_pos (a5.mpr hm)]
          exact ⟨a1, rfl, fun _ => a3⟩
        · rw [if_neg hm]
          exact ⟨a1, a2, fun _ => a3⟩
      · rw [if_neg hth]
        exact ⟨⟨h1, hg, h3, h4, hl⟩, rfl, fun _ => rfl⟩
  case secondClickThreshold =>
    obtain ⟨hg, h3, h4, hl⟩ := h
    unfold onPointerMove
    rw [if_pos (Or.inr rfl)]
    rcases spt with _ | q
    · exact absurd rfl h3
    · dsimp only
      by_cases hth : (q.x - pt.x).natAbs > dragThreshold ∨
          (q.y - pt.y).natAbs > dragThreshold
      · rw [if_pos hth]
        simp only [eq_self_iff_true, if_true]
        obtain ⟨a1, a2, a3, a4, a5, a6⟩ :=
          enterClickDragTo_master ⟨si, mp, none, none⟩ _ rfl hg hl h4
        simp only [a2, Option.isSome_none, Bool.false_eq_true, if_false]
        rw [a4]
        dsimp only
        by_cases hm : mode = MoveInputMode.dragPiece
        · rw [if_pos hm, if_pos (a5.mpr hm)]
          exact ⟨a1, rfl, fun _ => a3⟩
        · rw [if_neg hm]
          exact ⟨a1, a2, fun _ => a3⟩
      · rw [if_neg hth]
        exact ⟨⟨hg, h3, h4, hl⟩, rfl, fun _ => rfl⟩
  case clickTo =>
    obtain ⟨hg, h2, hl⟩ := h
    obtain ⟨si0, p0, hg1, hg2, hg3⟩ := hg
    unfold onPointerMove
    rw [if_neg (by simp), if_pos (Or.inr (Or.inr rfl))]
    dsimp only
    obtain ⟨e2, m2, heq⟩ := moveOverBoard_fields t _
    rw [heq]
    dsimp only
    rw [if_neg (by simp)]
    exact ⟨⟨⟨si0, p0, hg1, hg2, hg3⟩, h2, hl⟩, rfl, fun _ => rfl⟩
  case dragTo =>
    obtain ⟨hg, hiff, hl⟩ := h
    obtain ⟨si0, p0, hg1, hg2, hg3⟩ := hg
    unfold onPointerMove
    rw [if_neg (by simp), if_pos (Or.inl rfl)]
    dsimp only
    obtain ⟨e2, m2, heq⟩ := moveOverBoard_fields t _
    rw [heq]
    dsimp only
    by_cases hm : mode = MoveInputMode.dragPiece
    · rw [if_pos ⟨hm, Or.inl rfl⟩, if_pos (hiff.mpr hm)]
      exact ⟨⟨⟨si0, p0, hg1, hg2, hg3⟩, hiff, hl⟩, rfl, fun _ => rfl⟩
    · rw [if_neg (fun hc => hm hc.1)]
      exact ⟨⟨⟨si0, p0, hg1, hg2, hg3⟩, hiff, hl⟩, rfl, fun _ => rfl⟩
  case clickDragTo =>
    obtain ⟨hg, hiff, hl⟩ := h
    obtain ⟨si0, p0, hg1, hg2, hg3⟩ := hg
    unfold onPointerMove
    rw [if_neg (by simp), if_pos (Or.inr (Or.inl rfl))]
    dsimp only
    obtain ⟨e2, m2, heq⟩ := moveOverBoard_fields t _
    rw [heq]
    dsimp only
    by_cases hm : mode = MoveInputMode.dragPiece
    · rw [if_pos ⟨hm, Or.inr rfl⟩, if_pos (hiff.mpr hm)]
      exact ⟨⟨⟨si0, p0, hg1, hg2, hg3⟩, hiff, hl⟩, rfl, fun _ => rfl⟩
    · rw [if_neg (fun hc => hm hc.1)]
      exact ⟨⟨⟨si0, p0, hg1, hg2, hg3⟩, hiff, hl⟩, rfl, fun _ => rfl⟩
  case moveDone => exact h.elim
  case reset => exact h.elim

theorem pieceAt_truthy (w : World) (ti : Option Nat)
    (h : truthyStr (pieceAt w ti) = true) :
    ∃ i p, ti = some i ∧ w.squares.get? i = some (some p) ∧
      pieceAt w ti = some p := by
  rcases ti with _ | i
  · simp [pieceAt, truthyStr] at h
  · rcases hq : w.squares.get? i with _ | v
    · simp only [pieceAt] at h
      rw [hq] at h
      simp [truthyStr] at h
    · rcases v with _ | p
      · simp only [pieceAt] at h
        rw [hq] at h
        simp [truthyStr] at h
      · refine ⟨i, p, rfl, hq, ?_⟩
        simp only [pieceAt]
        rw [hq]
        rfl

theorem down_master (cbStart : Option Nat → Bool)
    (cbDone : Option Nat → Option Nat → Bool) (etype : EvType) (button : Nat)
    (targetIndex : Option Nat) (pt : Pt) (w : World) (h : Inv w) :
    Inv (onPointerDown cbStart cbDone etype button targetIndex pt w).world ∧
      (onPointerDown cbStart cbDone etype button targetIndex pt w).err = none ∧
      ((∀ a b, Effect.moveDoneCB a b true ∉
          (onPointerDown cbStart cbDone etype button targetIndex pt w).effects) →
        (onPointerDown cbStart cbDone etype button targetIndex pt w).world.squares
          = w.squares) := by
  obtain ⟨st, si, ei, mp, spt, dp, ml, ul, sqs, mks, iw, ib, mode⟩ := w
  by_cases hev : ((etype = EvType.mousedown ∧ button = 0) ∨
      etype = EvType.touchstart)
  case neg =>
    unfold onPointerDown
    rw [if_neg hev]
    exact ⟨h, rfl, fun _ => rfl⟩
  case pos =>
  cases st
  case waitForInputStart =>
    unfold onPointerDown
    rw [if_pos hev]
    dsimp only
    by_cases hcond : ((MIState.waitForInputStart ≠ MIState.waitForInputStart) ∨
        (iw = true ∧ colorOf (pieceAt ⟨MIState.waitForInputStart, si, ei, mp,
          spt, dp, ml, ul, sqs, mks, iw, ib, mode⟩ targetIndex) = some "w") ∨
        (ib = true ∧ colorOf (pieceAt ⟨MIState.waitForInputStart, si, ei, mp,
          spt, dp, ml, ul, sqs, mks, iw, ib, mode⟩ targetIndex) = some "b"))
    · rw [if_pos hcond]
      simp only [eq_self_iff_true, if_true]
      by_cases htr : truthyStr (pieceAt ⟨MIState.waitForInputStart, si, ei, mp,
          spt, dp, ml, ul, sqs, mks, iw, ib, mode⟩ targetIndex) = true
      · rw [if_pos htr]
        by_cases hcb : cbStart targetIndex = true
        · rw [if_pos hcb]
          obtain ⟨h1, h2, h3, h4, h5, h6, h7⟩ := h
          obtain ⟨i0, p0, hti, hsq, hpn⟩ := pieceAt_truthy _ _ htr
          subst hti
          have hty : (Params.mk (some i0)
              (pieceAt ⟨MIState.waitForInputStart, si, ei, mp, spt, dp, ml, ul,
                sqs, mks, iw, ib, mode⟩ (some i0)) (some pt) (some etype)).ptype
                = some EvType.mousedown ∨
              (Params.mk (some i0)
              (pieceAt ⟨MIState.waitForInputStart, si, ei, mp, spt, dp, ml, ul,
                sqs, mks, iw, ib, mode⟩ (some i0)) (some pt) (some etype)).ptype
                = some EvType.touchstart := by
            rcases hev with ⟨hm, -⟩ | ht
            · exact Or.inl (by rw [hm])
            · exact Or.inr (by rw [ht])
          obtain ⟨a1, a2, a3⟩ := enterPieceClickedThreshold_master
            _ _ rfl h5 h6 h4 i0 p0 pt rfl hpn hsq rfl hty
          exact ⟨a1, a2, fun _ => a3⟩
        · rw [if_neg hcb]
          exact ⟨h, rfl, fun _ => rfl⟩
      · rw [if_neg htr]
        exact ⟨h, rfl, fun _ => rfl⟩
    · rw [if_neg hcond]
      exact ⟨h, rfl, fun _ => rfl⟩
  case clickTo =>
    obtain ⟨hg, h2, hl⟩ := h
    unfold onPointerDown
    rw [if_pos hev]
    dsimp only
    rw [if_pos (Or.inl (by simp))]
    simp only [reduceCtorEq, if_false, if_true]
    by_cases hti : targetIndex = si
    · rw [if_pos hti]
      obtain ⟨b1, b2, b3⟩ := enterSecondClickThreshold_master
        ⟨targetIndex, pieceAt ⟨MIState.clickTo, si, ei, mp, spt, dp, ml, ul,
          sqs, mks, iw, ib, mode⟩ targetIndex, some pt, some etype⟩
        _ rfl hg hl h2 (by simp)
      exact ⟨b1, b2, fun _ => b3⟩
    · rw [if_neg hti]
      exact enterMoveDone_master _ _ _ (Or.inr (Or.inl rfl)) hg
  case pieceClickedThreshold =>
    unfold onPointerDown
    rw [if_pos hev]
    dsimp only
    rw [if_pos (Or.inl (by simp))]
    simp only [reduceCtorEq, if_false]
    refine ⟨h, ?_, ?_⟩ <;> simp
  case secondClickThreshold =>
    unfold onPointerDown
    rw [if_pos hev]
    dsimp only
    rw [if_pos (Or.inl (by simp))]
    simp only [reduceCtorEq, if_false]
    refine ⟨h, ?_, ?_⟩ <;> simp
  case dragTo =>
    unfold onPointerDown
    rw [if_pos hev]
    dsimp only
    rw [if_pos (Or.inl (by simp))]
    simp only [reduceCtorEq, if_false]
    refine ⟨h, ?_, ?_⟩ <;> simp
  case clickDragTo =>
    unfold onPointerDown
    rw [if_pos hev]
    dsimp only
    rw [if_pos (Or.inl (by simp))]
    simp only [reduceCtorEq, if_false]
    refine ⟨h, ?_, ?_⟩ <;> simp
  case moveDone => exact h.elim
  case reset => exact h.elim

theorem step_master (cbStart : Option Nat → Bool)
    (cbDone : Option Nat → Option Nat → Bool) (ev : Ev) (w : World)
    (h : Inv w) :
    Inv (step cbStart cbDone ev w).world ∧
      (step cbStart cbDone ev w).err = none ∧
      ((∀ a b, Effect.moveDoneCB a b true ∉ (step cbStart cbDone ev w).effects) →
        (step cbStart cbDone ev w).world.squares = w.squares) := by
  rcases ev with ⟨et, b, ti, p⟩ | ⟨p, t⟩ | t
  · exact down_master cbStart cbDone et b ti p w h
  · unfold step
    dsimp only
    by_cases hL : w.pointerMoveListener = true
    · rw [if_pos hL]
      exact move_master p t w h hL
    · rw [if_neg hL]
      exact ⟨h, rfl, fun _ => rfl⟩
  · unfold step
    dsimp only
    by_cases hL : w.pointerUpListener = true
    · rw [if_pos hL]
      exact up_master cbDone t w h hL
    · rw [if_neg hL]
      exact ⟨h, rfl, fun _ => rfl⟩

theorem reach_inv (w : World) (h : Reachable w) : Inv w := by
  induction h with
  | init sqs iw ib mode => exact ⟨rfl, rfl, rfl, rfl, rfl, rfl, by simp [initWorld]⟩
  | next cbS cbD ev w hw ih => exact (step_master cbS cbD ev w ih).1

theorem updateStartEndMarkers_fields (w : World) :
    ∃ m, (updateStartEndMarkers w).1 = { w with markers := m } := by
  obtain ⟨st, si, ei, mp, spt, dp, ml, ul, sqs, mks, iw, ib, mode⟩ := w
  unfold updateStartEndMarkers
  cases si <;> cases ei <;> exact ⟨_, rfl⟩

theorem reachable_runEvents (cbStart : Option Nat → Bool)
    (cbDone : Option Nat → Option Nat → Bool) (evs : List Ev) (w : World)
    (h : Reachable w) : Reachable (runEvents cbStart cbDone evs w) := by
  induction evs generalizing w with
  | nil => exact h
  | cons e es ih =>
    exact ih (step cbStart cbDone e w).world (Reachable.next cbStart cbDone e w h)

/-- Claim C9: Requesting a transition into `pieceClickedThreshold`,
`secondClickThreshold`, `dragTo`, `clickDragTo` or `moveDone` from a state
other than its allowed predecessor(s), or attempting to attach the move/up
listener pair while one is already registered, throws an `Error` immediately
and leaves the placement unchanged. -/
theorem c9_invalid_transition_throws (cbDone : Option Nat → Option Nat → Bool)
    (ns : MIState) (params : Params) (w : World) (h : GuardViolated ns w) :
    (setMoveInputState cbDone ns params w).err ≠ none ∧
      (setMoveInputState cbDone ns params w).world.squares = w.squares := by
  obtain ⟨pi, pp, ppt, pty⟩ := params
  obtain ⟨st, si, ei, mp, spt, dp, ml, ul, sqs, mks, iw, ib, mode⟩ := w
  cases ns
  case waitForInputStart => exact h.elim
  case clickTo => exact h.elim
  case reset => exact h.elim
  case pieceClickedThreshold =>
    unfold setMoveInputState enterPieceClickedThreshold
    dsimp only
    rcases h with hst | hml | hul
    · rw [if_neg hst]
      exact ⟨by simp, rfl⟩
    · by_cases hst : st = MIState.waitForInputStart
      · rw [if_pos hst]
        simp only at hml
        obtain ⟨m2, hm2⟩ := updateStartEndMarkers_fields
          ⟨MIState.pieceClickedThreshold, pi, none, pp, spt, dp, ml, ul, sqs,
            mks, iw, ib, mode⟩
        rw [hm2]
        dsimp only
        rw [if_neg (fun hc => by rw [hml] at hc; exact absurd hc.1 (by simp))]
        exact ⟨by simp, rfl⟩
      · rw [if_neg hst]
        exact ⟨by simp, rfl⟩
    · by_cases hst : st = MIState.waitForInputStart
      · rw [if_pos hst]
        simp only at hul
        obtain ⟨m2, hm2⟩ := updateStartEndMarkers_fields
          ⟨MIState.pieceClickedThreshold, pi, none, pp, spt, dp, ml, ul, sqs,
            mks, iw, ib, mode⟩
        rw [hm2]
        dsimp only
        rw [if_neg (fun hc => by rw [hul] at hc; exact absurd hc.2 (by simp))]
        exact ⟨by simp, rfl⟩
      · rw [if_neg hst]
        exact ⟨by simp, rfl⟩
  case secondClickThreshold =>
    unfold setMoveInputState enterSecondClickThreshold
    dsimp only
    rw [if_neg h]
    exact ⟨by simp, rfl⟩
  case dragTo =>
    unfold setMoveInputState enterDragTo
    dsimp only
    rw [if_neg h]
    exact ⟨by simp, rfl⟩
  case clickDragTo =>
    unfold setMoveInputState enterClickDragTo
    dsimp only
    rw [if_neg h]
    exact ⟨by simp, rfl⟩
  case moveDone =>
    unfold setMoveInputState enterMoveDone
    dsimp only
    rw [if_neg h]
    exact ⟨by simp, rfl⟩

/-- Claim C5: A pointer-down whose hit square holds no piece, or holds a piece
whose color is not currently input-enabled, leaves the machine exactly as it
was while in `waitForInputStart`: no transition, no effects (hence no
listeners attached and no markers set), no error. -/
theorem c5_pointer_down_ignored (cbStart : Option Nat → Bool)
    (cbDone : Option Nat → Option Nat → Bool) (etype : EvType) (button : Nat)
    (targetIndex : Option Nat) (pt : Pt) (w : World)
    (hst : w.moveInputState = MIState.waitForInputStart)
    (hp : pieceAt w targetIndex = none ∨
      (∃ p, pieceAt w targetIndex = some p ∧
        ¬(w.inputWhiteEnabled = true ∧ p.take 1 = "w") ∧
        ¬(w.inputBlackEnabled = true ∧ p.take 1 = "b"))) :
    step cbStart cbDone (Ev.down etype button targetIndex pt) w =
      ⟨w, [], none⟩ := by
  have hw : ¬(w.inputWhiteEnabled = true ∧
      colorOf (pieceAt w targetIndex) = some "w") := by
    rcases hp with hnone | ⟨p, hp1, hp2, hp3⟩
    · rw [hnone]
      rintro ⟨-, hc⟩
      simp [colorOf] at hc
    · rw [hp1]
      rintro ⟨hiw, hc⟩
      simp only [colorOf] at hc
      by_cases he : p = ""
      · rw [if_pos he] at hc
        exact absurd hc (by simp)
      · rw [if_neg he] at hc
        exact hp2 ⟨hiw, by simpa using hc⟩
  have hb : ¬(w.inputBlackEnabled = true ∧
      colorOf (pieceAt w targetIndex) = some "b") := by
    rcases hp with hnone | ⟨p, hp1, hp2, hp3⟩
    · rw [hnone]
      rintro ⟨-, hc⟩
      simp [colorOf] at hc
    · rw [hp1]
      rintro ⟨hib, hc⟩
      simp only [colorOf] at hc
      by_cases he : p = ""
      · rw [if_pos he] at hc
        exact absurd hc (by simp)
      · rw [if_neg he] at hc
        exact hp3 ⟨hib, by simpa using hc⟩
  unfold step onPointerDown
  dsimp only
  by_cases hev : ((etype = EvType.mousedown ∧ button = 0) ∨
      etype = EvType.touchstart)
  · rw [if_pos hev, if_neg ?_]
    rintro ((hne : ¬_) | hcw | hcb)
    · exact hne hst
    · exact hw hcw
    · exact hb hcb
  · rw [if_neg hev]

/-- Claim C10: While in `ClickTo` (no drag in progress), pointer-moves still
track a hover target: over a board square different from both `startIndex`
and the current `endIndex`, `endIndex` is set to that square and the move
markers are refreshed; back over the start square, or off the board squares,
`endIndex` is cleared. -/
theorem c10_clickTo_hover_tracking (cbStart : Option Nat → Bool)
    (cbDone : Option Nat → Option Nat → Bool) (pt : Pt)
    (t : Option MoveTarget) (w : World) (si0 : Nat)
    (hml : w.pointerMoveListener = true)
    (hst : w.moveInputState = MIState.clickTo)
    (hsi : w.startIndex = some si0) :
    (∀ k, t = some ⟨some k, true⟩ → k ≠ si0 →
      some k ≠ w.endIndex →
      (step cbStart cbDone (Ev.move pt t) w).world.endIndex = some k ∧
      (step cbStart cbDone (Ev.move pt t) w).world.markers =
        (w.markers.filter (fun m => m.2 ≠ moveMarkerType) ++
          [(si0, moveMarkerType)]) ++ [(k, moveMarkerType)] ∧
      Effect.drawMarkersDebounced ∈ (step cbStart cbDone (Ev.move pt t) w).effects) ∧
    (t = some ⟨some si0, true⟩ →
      (step cbStart cbDone (Ev.move pt t) w).world.endIndex = none) ∧
    ((t = none ∨ (∃ mt, t = some mt ∧ mt.inBoardGroup = false)) →
      (step cbStart cbDone (Ev.move pt t) w).world.endIndex = none) := by
  obtain ⟨st, si, ei, mp, spt, dp, ml, ul, sqs, mks, iw, ib, mode⟩ := w
  simp only at hml hst hsi
  subst hml hst hsi
  unfold step
  dsimp only
  rw [if_pos rfl]
  unfold onPointerMove
  rw [if_neg (by simp), if_pos (Or.inr (Or.inr rfl))]
  dsimp only
  have hstate : ∀ tt, (moveOverBoard tt
      ⟨MIState.clickTo, some si0, ei, mp, spt, dp, true, ul, sqs, mks, iw, ib,
        mode⟩).1.moveInputState = MIState.clickTo := by
    intro tt
    obtain ⟨e2, m2, heq⟩ := moveOverBoard_fields tt _
    rw [heq]
  rw [if_neg (fun hc => by
    rcases hc.2 with h1 | h2
    · rw [hstate t] at h1
      exact absurd h1 (by simp)
    · rw [hstate t] at h2
      exact absurd h2 (by simp))]
  refine ⟨?_, ?_, ?_⟩
  · intro k hk hne1 hne2
    subst hk
    unfold moveOverBoard updateStartEndMarkers
    dsimp only
    rw [if_pos rfl, if_pos ⟨by simpa using hne1, by simpa using hne2⟩]
    exact ⟨rfl, rfl, by simp⟩
  · intro hk
    subst hk
    unfold moveOverBoard updateStartEndMarkers clearEndIndexIfSet
    dsimp only
    rw [if_pos rfl]
    rw [if_neg (fun hc => hc.1 rfl)]
    by_cases hei : ei ≠ none
    · rw [if_pos ⟨rfl, hei⟩]
    · rw [if_neg (fun hc => hei hc.2)]
      simpa using hei
  · intro ht
    rcases ht with hnone | ⟨mt, hmt, hib⟩
    · subst hnone
      unfold moveOverBoard clearEndIndexIfSet updateStartEndMarkers
      dsimp only
      by_cases hei : ei ≠ none
      · rw [if_pos hei]
      · rw [if_neg hei]
        simpa using hei
    · subst hmt
      obtain ⟨tdi, tib⟩ := mt
      simp only at hib
      subst hib
      unfold moveOverBoard clearEndIndexIfSet updateStartEndMarkers
      dsimp only
      rw [if_neg (by simp)]
      by_cases hei : ei ≠ none
      · rw [if_pos hei]
      · rw [if_neg hei]
        simpa using hei

theorem enterReset_squares_end_some {w : World} {e : Nat}
    (h : w.endIndex = some e) : (enterReset w).1.squares = w.squares := by
  rw [enterReset_world]
  exact resetSquares_of_end_some w e h

/-- Claim C2: Entering `moveDone` with `endIndex` set and an accepting
`moveDoneCallback`: the placement is committed (start square cleared, moved
piece placed on the destination), the change is animated exactly when the
predecessor state was `clickTo` and redrawn immediately otherwise, and the
machine proceeds through `reset` back to `waitForInputStart`. -/
theorem c2_moveDone_accept_commits (cbDone : Option Nat → Option Nat → Bool)
    (params : Params) (w : World) (si0 ei0 : Nat) (p0 : String)
    (hprev : w.moveInputState = MIState.dragTo ∨
      w.moveInputState = MIState.clickTo ∨
      w.moveInputState = MIState.clickDragTo)
    (hsi : w.startIndex = some si0) (hmp : w.movedPiece = some p0)
    (hidx : params.index = some ei0)
    (hcb : cbDone (some si0) (some ei0) = true) :
    (setMoveInputState cbDone MIState.moveDone params w).err = none ∧
    (setMoveInputState cbDone MIState.moveDone params w).world.moveInputState =
      MIState.waitForInputStart ∧
    (setMoveInputState cbDone MIState.moveDone params w).world.squares =
      (w.squares.set si0 (none : Option String)).set ei0 (some p0) ∧
    (w.moveInputState = MIState.clickTo →
      Effect.animatePiecesEff w.squares
          ((w.squares.set si0 (none : Option String)).set ei0 (some p0)) ∈
        (setMoveInputState cbDone MIState.moveDone params w).effects ∧
      ∀ s, Effect.drawPieces s ∉
        (setMoveInputState cbDone MIState.moveDone params w).effects) ∧
    (w.moveInputState ≠ MIState.clickTo →
      Effect.drawPieces
          ((w.squares.set si0 (none : Option String)).set ei0 (some p0)) ∈
        (setMoveInputState cbDone MIState.moveDone params w).effects ∧
      ∀ a b, Effect.animatePiecesEff a b ∉
        (setMoveInputState cbDone MIState.moveDone params w).effects) := by
  obtain ⟨pi, pp, ppt, pty⟩ := params
  obtain ⟨st, si, ei, mp, spt, dp, ml, ul, sqs, mks, iw, ib, mode⟩ := w
  simp only at hsi hmp hidx hprev ⊢
  subst hsi hmp hidx
  unfold setMoveInputState enterMoveDone
  rw [if_pos hprev]
  dsimp only
  rw [if_pos hcb]
  by_cases hct : st = MIState.clickTo
  · rw [if_pos hct]
    refine ⟨rfl, ?_, ?_, fun _ => ⟨by simp [setPieceOpt], ?_⟩, fun hn => absurd hct hn⟩
    · rw [enterReset_world]
    · dsimp only
      apply enterReset_squares_end_some
      rfl
    · intro s hmem
      rw [enterReset_effects] at hmem
      rcases hdp : dp with _ | _ <;> rw [hdp] at hmem <;> simp at hmem
  · rw [if_neg hct]
    refine ⟨rfl, ?_, ?_, fun hc => absurd hc hct, fun _ => ⟨by simp [setPieceOpt], ?_⟩⟩
    · rw [enterReset_world]
    · dsimp only
      apply enterReset_squares_end_some
      rfl
    · intro a b hmem
      rw [enterReset_effects] at hmem
      rcases hdp : dp with _ | _ <;> rw [hdp] at hmem <;> simp at hmem

/-- Claim C3: A gesture reaching `moveDone` whose `moveDoneCallback` returns
false: the placement is exactly unchanged, a debounced redraw restores the
visuals, the machine returns to its initial state (`waitForInputStart` with
all transient fields cleared), and no error is thrown. -/
theorem c3_moveDone_reject_recovers (cbDone : Option Nat → Option Nat → Bool)
    (params : Params) (w : World) (ei0 : Nat)
    (hprev : w.moveInputState = MIState.dragTo ∨
      w.moveInputState = MIState.clickTo ∨
      w.moveInputState = MIState.clickDragTo)
    (hidx : params.index = some ei0)
    (hcb : cbDone w.startIndex (some ei0) = false) :
    (setMoveInputState cbDone MIState.moveDone params w).err = none ∧
    (setMoveInputState cbDone MIState.moveDone params w).world.squares =
      w.squares ∧
    Effect.drawPiecesDebounced ∈
      (setMoveInputState cbDone MIState.moveDone params w).effects ∧
    (setMoveInputState cbDone MIState.moveDone params w).world.moveInputState =
      MIState.waitForInputStart ∧
    (setMoveInputState cbDone MIState.moveDone params w).world.startIndex =
      none ∧
    (setMoveInputState cbDone MIState.moveDone params w).world.endIndex =
      none ∧
    (setMoveInputState cbDone MIState.moveDone params w).world.movedPiece =
      none := by
  obtain ⟨pi, pp, ppt, pty⟩ := params
  obtain ⟨st, si, ei, mp, spt, dp, ml, ul, sqs, mks, iw, ib, mode⟩ := w
  simp only at hidx hcb hprev ⊢
  subst hidx
  unfold setMoveInputState enterMoveDone
  rw [if_pos hprev]
  dsimp only
  rw [hcb]
  simp only [Bool.false_eq_true, if_false]
  refine ⟨by trivial, ?_, by simp, ?_, ?_, ?_, ?_⟩
  · dsimp only
    apply enterReset_squares_end_some
    rfl
  · rw [enterReset_world]
  · rw [enterReset_world]
  · rw [enterReset_world]
  · rw [enterReset_world]

/-- Claim C1: Whenever the machine is (back) in `waitForInputStart` in any
reachable state — in particular after any completed gesture, accepted,
rejected or canceled — `startIndex`, `endIndex` and `movedPiece` are cleared,
no move-type marker remains, no floating draggable piece exists, and both the
pointer-move and pointer-up listeners are detached. -/
theorem c1_completed_gesture_clean (w : World) (h : Reachable w)
    (hst : w.moveInputState = MIState.waitForInputStart) :
    w.startIndex = none ∧ w.endIndex = none ∧ w.movedPiece = none ∧
    (∀ m ∈ w.markers, m.2 ≠ moveMarkerType) ∧ w.draggablePiece = false ∧
    w.pointerMoveListener = false ∧ w.pointerUpListener = false := by
  have hi := reach_inv w h
  simp only [Inv, hst] at hi
  obtain ⟨h1, h2, h3, h4, h5, h6, h7⟩ := hi
  exact ⟨h1, h2, h3, h7, h4, h5, h6⟩

/-- Claim C8: Any event whose handling does not invoke `moveDoneCallback` with a
true result (so: every gesture event other than an accepted `moveDone`)
leaves the 64-slot placement unchanged as a value. -/
theorem c8_placement_only_on_accept (cbStart : Option Nat → Bool)
    (cbDone : Option Nat → Option Nat → Bool) (ev : Ev) (w : World)
    (h : Reachable w)
    (hna : ∀ a b, Effect.moveDoneCB a b true ∉
      (step cbStart cbDone ev w).effects) :
    (step cbStart cbDone ev w).world.squares = w.squares :=
  (step_master cbStart cbDone ev w (reach_inv w h)).2.2 hna

/-- Claim C6, amended: In every reachable state, `endIndex` is non-null only in
`dragTo`, `clickTo`, `clickDragTo` or `secondClickThreshold`. -/
theorem c6_endIndex_states (w : World) (h : Reachable w)
    (hne : w.endIndex ≠ none) :
    w.moveInputState = MIState.dragTo ∨ w.moveInputState = MIState.clickTo ∨
    w.moveInputState = MIState.clickDragTo ∨
    w.moveInputState = MIState.secondClickThreshold := by
  have hi := reach_inv w h
  rcases hst : w.moveInputState
  case waitForInputStart =>
    simp only [Inv, hst] at hi
    exact absurd hi.2.1 hne
  case pieceClickedThreshold =>
    simp only [Inv, hst] at hi
    exact absurd hi.1 hne
  case clickTo => exact Or.inr (Or.inl rfl)
  case secondClickThreshold => exact Or.inr (Or.inr (Or.inr rfl))
  case dragTo => exact Or.inl rfl
  case clickDragTo => exact Or.inr (Or.inr (Or.inl rfl))
  case moveDone =>
    simp only [Inv, hst] at hi
  case reset =>
    simp only [Inv, hst] at hi

/-- Claim C6, counterexample: A reachable state in `secondClickThreshold` whose
`endIndex` is non-null, refuting the claim that `endIndex` is null in that
state. -/
theorem c6_counterexample :
    wC6.moveInputState = MIState.secondClickThreshold ∧
      wC6.endIndex = some 28 := by
  constructor <;> rfl

theorem c6_witness :
    Reachable wC6 ∧ wC6.endIndex ≠ none ∧
      (wC6.moveInputState = MIState.dragTo ∨
       wC6.moveInputState = MIState.clickTo ∨
       wC6.moveInputState = MIState.clickDragTo ∨
       wC6.moveInputState = MIState.secondClickThreshold) := by
  have hr : Reachable wC6 :=
    reachable_runEvents cbStartT cbDoneT evsC6 w0
      (Reachable.init sqs0 true false MoveInputMode.click)
  exact ⟨hr, by decide, c6_endIndex_states wC6 hr (by decide)⟩

theorem enterReset_state (w : World) :
    (enterReset w).1.moveInputState = MIState.waitForInputStart := by
  rw [enterReset_world]

theorem enterReset_squares_inv (w : World) (hi : Inv w) :
    (enterReset w).1.squares = w.squares := by
  rw [enterReset_world]
  exact resetSquares_of_inv w hi

/-- Claim C7, amended: A pointer-up outside any board square while in `dragTo`,
`clickDragTo` or `clickTo` resets the machine to its initial state with the
placement unchanged and no error; `moveCanceledCallback` is invoked with
reason `movedOutOfBoard` exactly when the hit test produced a DOM target (an
element without a square index) — when it produced no target at all, the
machine resets silently. -/
theorem c7_outside_board_cancel (cbStart : Option Nat → Bool)
    (cbDone : Option Nat → Option Nat → Bool) (t : Option UpTarget)
    (w : World) (h : Reachable w)
    (hst : w.moveInputState = MIState.dragTo ∨
      w.moveInputState = MIState.clickDragTo ∨
      w.moveInputState = MIState.clickTo)
    (ht : t = none ∨ t = some ⟨none⟩) :
    (step cbStart cbDone (Ev.up t) w).world.moveInputState =
      MIState.waitForInputStart ∧
    (step cbStart cbDone (Ev.up t) w).world.squares = w.squares ∧
    (step cbStart cbDone (Ev.up t) w).err = none ∧
    (Effect.moveCanceledCB reasonMovedOutOfBoard none ∈
        (step cbStart cbDone (Ev.up t) w).effects ↔ t ≠ none) := by
  have hi := reach_inv w h
  have hul : w.pointerUpListener = true := by
    rcases hst with h1 | h1 | h1 <;> simp only [Inv, h1] at hi <;>
      exact hi.2.2.2
  unfold step
  dsimp only
  rw [if_pos hul]
  rcases ht with h1 | h1 <;> subst h1
  · unfold onPointerUp
    dsimp only
    refine ⟨enterReset_state w, enterReset_squares_inv w hi, rfl, ?_⟩
    rw [enterReset_effects]
    cases hdp : w.draggablePiece <;> simp
  · unfold onPointerUp
    dsimp only
    refine ⟨enterReset_state w, enterReset_squares_inv w hi, rfl, ?_⟩
    simp

/-- Claim C7, counterexample: A pointer-up whose hit test yields no target at
all, while in `dragTo`, resets the machine with the placement unchanged but
never invokes `moveCanceledCallback` — refuting the claim that every
pointer-up outside any square reports reason `movedOutOfBoard`. -/
theorem c7_counterexample :
    wC7.moveInputState = MIState.dragTo ∧
    rC7.world.moveInputState = MIState.waitForInputStart ∧
    rC7.world.squares = wC7.squares ∧
    rC7.effects.all (fun e => !(isCancelEffect e)) = true := by
  refine ⟨rfl, rfl, rfl, rfl⟩

theorem c7_witness :
    Reachable wC7 ∧
    (wC7.moveInputState = MIState.dragTo ∨
     wC7.moveInputState = MIState.clickDragTo ∨
     wC7.moveInputState = MIState.clickTo) ∧
    ((some ⟨none⟩ : Option UpTarget) = none ∨
      (some ⟨none⟩ : Option UpTarget) = some ⟨none⟩) ∧
    ((step cbStartT cbDoneT (Ev.up (some ⟨none⟩)) wC7).world.moveInputState =
        MIState.waitForInputStart ∧
      (step cbStartT cbDoneT (Ev.up (some ⟨none⟩)) wC7).world.squares =
        wC7.squares ∧
      (step cbStartT cbDoneT (Ev.up (some ⟨none⟩)) wC7).err = none ∧
      (Effect.moveCanceledCB reasonMovedOutOfBoard none ∈
          (step cbStartT cbDoneT (Ev.up (some ⟨none⟩)) wC7).effects ↔
        (some ⟨none⟩ : Option UpTarget) ≠ none)) := by
  have hr : Reachable wC7 :=
    reachable_runEvents cbStartT cbDoneT evsC7 w0
      (Reachable.init sqs0 true false MoveInputMode.click)
  exact ⟨hr, by decide, by decide,
    c7_outside_board_cancel cbStartT cbDoneT (some ⟨none⟩) wC7 hr
      (by decide) (by decide)⟩

theorem c1_witness :
    Reachable wC1 ∧ wC1.moveInputState = MIState.waitForInputStart ∧
    (wC1.startIndex = none ∧ wC1.endIndex = none ∧ wC1.movedPiece = none ∧
      (∀ m ∈ wC1.markers, m.2 ≠ moveMarkerType) ∧
      wC1.draggablePiece = false ∧ wC1.pointerMoveListener = false ∧
      wC1.pointerUpListener = false) := by
  have hr : Reachable wC1 :=
    reachable_runEvents cbStartT cbDoneT evsC1 w0
      (Reachable.init sqs0 true false MoveInputMode.click)
  exact ⟨hr, by decide, c1_completed_gesture_clean wC1 hr (by decide)⟩

theorem c2_witness :
    cbDoneT (some 12) (some 28) = true ∧
    wClickTo.moveInputState = MIState.clickTo ∧
    (setMoveInputState cbDoneT MIState.moveDone paramsTo28 wClickTo).world.squares =
      (wClickTo.squares.set 12 (none : Option String)).set 28 (some "wp") ∧
    (setMoveInputState cbDoneT MIState.moveDone paramsTo28 wClickTo).world.moveInputState =
      MIState.waitForInputStart := by
  have h := c2_moveDone_accept_commits cbDoneT paramsTo28 wClickTo 12 28 "wp"
    (Or.inr (Or.inl rfl)) rfl rfl rfl rfl
  exact ⟨rfl, rfl, h.2.2.1, h.2.1⟩

theorem c3_witness :
    cbDoneF wClickTo.startIndex (some 28) = false ∧
    (setMoveInputState cbDoneF MIState.moveDone paramsTo28 wClickTo).err =
      none ∧
    (setMoveInputState cbDoneF MIState.moveDone paramsTo28 wClickTo).world.squares =
      wClickTo.squares ∧
    (setMoveInputState cbDoneF MIState.moveDone paramsTo28 wClickTo).world.moveInputState =
      MIState.waitForInputStart := by
  have h := c3_moveDone_reject_recovers cbDoneF paramsTo28 wClickTo 28
    (Or.inr (Or.inl rfl)) rfl rfl
  exact ⟨rfl, h.1, h.2.1, h.2.2.2.1⟩

theorem c5_witness :
    w0.moveInputState = MIState.waitForInputStart ∧
    pieceAt w0 (some 20) = none ∧
    step cbStartT cbDoneT (Ev.down EvType.mousedown 0 (some 20) ⟨0, 0⟩) w0 =
      ⟨w0, [], none⟩ := by
  refine ⟨rfl, by decide, ?_⟩
  exact c5_pointer_down_ignored cbStartT cbDoneT EvType.mousedown 0 (some 20)
    ⟨0, 0⟩ w0 rfl (Or.inl (by decide))

theorem c8_witness :
    Reachable w0 ∧
    (step cbStartT cbDoneT (Ev.down EvType.mousedown 0 (some 20) ⟨0, 0⟩) w0).world.squares
      = w0.squares := by
  have hr : Reachable w0 := Reachable.init sqs0 true false MoveInputMode.click
  have he : (step cbStartT cbDoneT
      (Ev.down EvType.mousedown 0 (some 20) ⟨0, 0⟩) w0).effects = [] := by
    decide
  refine ⟨hr, ?_⟩
  exact c8_placement_only_on_accept cbStartT cbDoneT _ w0 hr
    (fun a b => by rw [he]; exact List.not_mem_nil _)

theorem c9_witness :
    GuardViolated MIState.dragTo wClickTo ∧
    (setMoveInputState cbDoneT MIState.dragTo paramsTo28 wClickTo).err ≠
      none ∧
    (setMoveInputState cbDoneT MIState.dragTo paramsTo28 wClickTo).world.squares =
      wClickTo.squares := by
  have hg : GuardViolated MIState.dragTo wClickTo :=
    (by decide : wClickTo.moveInputState ≠ MIState.pieceClickedThreshold)
  have h := c9_invalid_transition_throws cbDoneT MIState.dragTo paramsTo28
    wClickTo hg
  exact ⟨hg, h.1, h.2⟩

theorem c10_witness :
    wClickTo.pointerMoveListener = true ∧
    wClickTo.moveInputState = MIState.clickTo ∧
    wClickTo.startIndex = some 12 ∧
    (step cbStartT cbDoneT
        (Ev.move ⟨3, 3⟩ (some ⟨some 28, true⟩)) wClickTo).world.endIndex =
      some 28 := by
  refine ⟨rfl, rfl, rfl, ?_⟩
  exact ((c10_clickTo_hover_tracking cbStartT cbDoneT ⟨3, 3⟩
    (some ⟨some 28, true⟩) wClickTo 12 rfl rfl rfl).1 28 rfl
    (by decide) (by decide)).1

theorem startedOf_map_fst (base : ℚ) (q : List AnimEntry) :
    (startedOf base q).map Prod.fst = q := by
  induction q with
  | nil => rfl
  | cons a rest ih => simp [startedOf, ih]

theorem startedOf_durations (base : ℚ) (q : List AnimEntry) :
    ∀ x ∈ startedOf base q, x.2.2 = base / ((x.2.1 : ℚ) + 1) := by
  induction q with
  | nil => intro x hx; cases hx
  | cons a rest ih =>
    intro x hx
    rcases List.mem_cons.mp hx with h1 | h1
    · subst h1; rfl
    · exact ih x h1

theorem drainAnimations_false_run (base : ℚ) :
    ∀ (q : List AnimEntry) (a : AnimEntry) (run : Bool)
      (L : List (AnimEntry × Nat × ℚ)) (r : Option (List (Option String))),
      drainAnimations base false (q.length + 1) ⟨q, run, some a, L, r⟩ =
        ⟨[], false, none, L ++ startedOf base q,
          some ((q.getLastD a).toSquares)⟩ := by
  intro q
  induction q with
  | nil =>
    intro a run L r
    simp [drainAnimations, completeCurrentAnimation,
      nextPieceAnimationInQueue, startedOf]
  | cons b rest ih =>
    intro a run L r
    have h1 : completeCurrentAnimation base false ⟨b :: rest, run, some a, L, r⟩ =
        ⟨rest, true, some b,
          L ++ [(b, rest.length, base / ((rest.length : ℚ) + 1))],
          some a.toSquares⟩ := by
      simp [completeCurrentAnimation, nextPieceAnimationInQueue]
    calc drainAnimations base false (rest.length + 1 + 1)
          ⟨b :: rest, run, some a, L, r⟩
        = drainAnimations base false (rest.length + 1)
            (completeCurrentAnimation base false ⟨b :: rest, run, some a, L, r⟩) := rfl
      _ = drainAnimations base false (rest.length + 1)
            ⟨rest, true, some b,
              L ++ [(b, rest.length, base / ((rest.length : ℚ) + 1))],
              some a.toSquares⟩ := by rw [h1]
      _ = ⟨[], false, none,
            (L ++ [(b, rest.length, base / ((rest.length : ℚ) + 1))]) ++
              startedOf base rest,
            some ((rest.getLastD b).toSquares)⟩ :=
          ih b true _ (some a.toSquares)
      _ = ⟨[], false, none, L ++ startedOf base (b :: rest),
            some (((b :: rest).getLastD a).toSquares)⟩ := by
          simp [startedOf, List.getLastD_cons, List.getLast?_cons,
            List.getLastD_eq_getLast?]

theorem foldl_animatePieces_running (base : ℚ) (es : List AnimEntry) :
    ∀ v : AnimView, v.animationRunning = true →
      es.foldl (fun v a => animatePieces base a v) v =
        { v with animationQueue := v.animationQueue ++ es } := by
  induction es with
  | nil => intro v hv; simp
  | cons e rest ih =>
    intro v hv
    show rest.foldl _ (animatePieces base e v) = _
    have h1 : animatePieces base e v =
        { v with animationQueue := v.animationQueue ++ [e] } := by
      simp [animatePieces, hv]
    rw [h1, ih { v with animationQueue := v.animationQueue ++ [e] } hv]
    simp

/-- Claim C4, amended: Starting from an idle view, enqueue a burst of
animations (the first starts immediately, the rest queue behind it, exactly
as when enqueuing while one is already running) and let every one complete
with no floating draggable piece present.  Then: the animations play exactly
in FIFO enqueue order, one at a time; each one's duration at start is the
base duration divided by (queue length at that moment + 1); and the final
rendered placement is the target snapshot of the last enqueued animation. -/
theorem c4_queue_fifo_durations (base : ℚ) (e0 : AnimEntry)
    (es : List AnimEntry) :
    (drainAnimations base false (es.length + 1)
        ((e0 :: es).foldl (fun v a => animatePieces base a v)
          idleAnimView)).startedLog.map Prod.fst = e0 :: es ∧
    (∀ x ∈ (drainAnimations base false (es.length + 1)
        ((e0 :: es).foldl (fun v a => animatePieces base a v)
          idleAnimView)).startedLog,
      x.2.2 = base / ((x.2.1 : ℚ) + 1)) ∧
    (drainAnimations base false (es.length + 1)
        ((e0 :: es).foldl (fun v a => animatePieces base a v)
          idleAnimView)).lastDrawn =
      some (((e0 :: es).getLastD e0).toSquares) ∧
    (drainAnimations base false (es.length + 1)
        ((e0 :: es).foldl (fun v a => animatePieces base a v)
          idleAnimView)).animationQueue = [] ∧
    (drainAnimations base false (es.length + 1)
        ((e0 :: es).foldl (fun v a => animatePieces base a v)
          idleAnimView)).current = none := by
  have h0 : animatePieces base e0 idleAnimView =
      ⟨[], true, some e0, [(e0, 0, base / (((0 : Nat) : ℚ) + 1))], none⟩ := by
    simp [animatePieces, idleAnimView, nextPieceAnimationInQueue]
  have hfold : (e0 :: es).foldl (fun v a => animatePieces base a v)
      idleAnimView = ⟨es, true, some e0,
        [(e0, 0, base / (((0 : Nat) : ℚ) + 1))], none⟩ := by
    show es.foldl _ (animatePieces base e0 idleAnimView) = _
    rw [h0, foldl_animatePieces_running base es
      ⟨[], true, some e0, [(e0, 0, base / (((0 : Nat) : ℚ) + 1))], none⟩ rfl]
    rfl
  rw [hfold, drainAnimations_false_run]
  refine ⟨?_, ?_, ?_, rfl, rfl⟩
  · simp [startedOf_map_fst]
  · intro x hx
    rcases List.mem_cons.mp (by simpa using hx) with h1 | h1
    · subst h1; simp
    · exact startedOf_durations base es x h1
  · simp [List.getLastD_cons, List.getLast?_cons, List.getLastD_eq_getLast?]

theorem c4_witness :
    (drainAnimations 1000 false 3
        ([⟨sqs0, sqs0⟩, ⟨sqs0, wClickTo.squares.set 0 (some "bk")⟩,
          (⟨sqs0, sqs0.set 5 (some "wq")⟩ : AnimEntry)].foldl
          (fun v a => animatePieces 1000 a v) idleAnimView)).startedLog.map
        Prod.fst =
      [⟨sqs0, sqs0⟩, ⟨sqs0, wClickTo.squares.set 0 (some "bk")⟩,
        ⟨sqs0, sqs0.set 5 (some "wq")⟩] ∧
    (drainAnimations 1000 false 3
        ([⟨sqs0, sqs0⟩, ⟨sqs0, wClickTo.squares.set 0 (some "bk")⟩,
          (⟨sqs0, sqs0.set 5 (some "wq")⟩ : AnimEntry)].foldl
          (fun v a => animatePieces 1000 a v) idleAnimView)).lastDrawn =
      some (sqs0.set 5 (some "wq")) := by
  have h := c4_queue_fifo_durations 1000 ⟨sqs0, sqs0⟩
    [⟨sqs0, wClickTo.squares.set 0 (some "bk")⟩,
     ⟨sqs0, sqs0.set 5 (some "wq")⟩]
  exact ⟨h.1, h.2.2.1⟩

/-- Claim C4, counterexample: With a floating draggable piece present, a fully
played queue leaves the rendered placement untouched: the final rendered
placement is not the target snapshot of the last enqueued animation, refuting
the unconditional rendering conjunct of the claim. -/
theorem c4_counterexample :
    (drainAnimations 1000 true 1
        (animatePieces 1000 animCx idleAnimView)).animationQueue = [] ∧
    (drainAnimations 1000 true 1
        (animatePieces 1000 animCx idleAnimView)).current = none ∧
    (drainAnimations 1000 true 1
        (animatePieces 1000 animCx idleAnimView)).startedLog.map Prod.fst =
      [animCx] ∧
    (drainAnimations 1000 true 1
        (animatePieces 1000 animCx idleAnimView)).lastDrawn ≠
      some animCx.toSquares := by
  refine ⟨rfl, rfl, rfl, ?_⟩
  decide

end CmChessboard
